import Mathlib

/-!
Shallow embedding of the `for` remote-automation engine (Go sources under
`pkg/tasks/tasks.go` and `pkg/vault/vault.go`) together with proofs about the
engine's variable scoping, template evaluation, tag filtering, task
classification, handler firing, service dependency resolution and the vault
codec.

Modelling conventions:
* Go `map[string]interface{}` / `map[string]string` variable scopes are
  association lists (`VarMap`); an insertion prepends the binding and lookup
  takes the first match, so later insertions shadow earlier ones exactly like
  Go map writes.  Literal maps are written with distinct keys, as in Go.
* Go `text/template` sources are modelled as pre-parsed sequences of pieces:
  literal text and `\x7b\x7b .name \x7d\x7d` references; `tmplSrc` recovers the
  source text.  With `Option("missingkey=zero")` on a `map[string]interface{}`,
  a missing key renders Go's `<no value>` marker (the zero `interface{}` is a
  nil value, which `text/template` prints as `<no value>`).
* `strings.ToLower` / `strings.TrimSpace` are modelled on their ASCII fragment.
* Remote/local command execution, file copying and fact gathering are
  abstracted into an `ExecEnv` oracle giving each invocation's observable
  outcome; the AES-GCM cipher and base64 codec used by the vault are abstracted
  into a `GCM` structure carrying the round-trip laws of the Go standard
  library primitives.
* Goroutine fan-out in `RunPlaybook` is sequentialised; per-host results are
  independent in the source (they share only the recap mutex), so per-host
  projections of the sequential trace are faithful.
-/

namespace ForSpec

/-! ## Variable scopes (Go `map[string]interface{}` values, modelled as strings) -/

/-- A variable scope: association list, first binding wins on lookup. -/
abbrev VarMap := List (String × String)

/-- Go map lookup `m[k]`. -/
def varGet : VarMap → String → Option String
  | [], _ => none
  | (k', v) :: rest, k => if k' == k then some v else varGet rest k

/-- Go map write `m[k] = v` (the new binding shadows any older one). -/
def varSet (m : VarMap) (k v : String) : VarMap := (k, v) :: m

/-- One step of `mergeVars`: all of `b`'s keys override `a`'s. -/
def mergeTwo (a b : VarMap) : VarMap := b ++ a

/-- `mergeVars` from tasks.go: merges maps in order, later maps win on conflicts. -/
def mergeVars (ms : List VarMap) : VarMap := ms.foldl mergeTwo []

/-! ## Template model (`text/template` with `Option("missingkey=zero")`) -/

/-- A parsed template piece: literal text or a `\x7b\x7b .name \x7d\x7d` reference. -/
inductive Piece
  | lit (s : String)
  | ref (k : String)
deriving DecidableEq, Repr

/-- A parsed template. -/
abbrev Tmpl := List Piece

/-- Source text of one piece. -/
def pieceSrc : Piece → String
  | .lit s => s
  | .ref k => "\x7b\x7b ." ++ k ++ " \x7d\x7d"

/-- Source text of a template (the Go string handed to `template.Parse`). -/
def tmplSrc (t : Tmpl) : String := t.foldl (fun acc p => acc ++ pieceSrc p) ""

/-- Render one piece.  A key that is missing from a non-nil
`map[string]interface{}` renders, under `missingkey=zero`, the zero
`interface{}` value, which `text/template` prints as `<no value>`. -/
def renderPiece (vars : VarMap) : Piece → String
  | .lit s => s
  | .ref k =>
    match varGet vars k with
    | some v => v
    | none => "<no value>"

/-- Render a whole template against a scope. -/
def render (t : Tmpl) (vars : VarMap) : String :=
  t.foldl (fun acc p => acc ++ renderPiece vars p) ""

/-- `expandVars` from tasks.go: with an empty scope or an empty source the
input string is returned untouched; otherwise the template is executed.
Well-formed pre-parsed templates cannot fail to parse or execute. -/
def expandVars (s : Tmpl) (vars : VarMap) : Except String String :=
  if vars.isEmpty || tmplSrc s == "" then .ok (tmplSrc s)
  else .ok (render s vars)

/-- ASCII fragment of Go `strings.ToLower`. -/
def goLowerChar (c : Char) : Char :=
  if 'A' ≤ c ∧ c ≤ 'Z' then Char.ofNat (c.toNat + 32) else c

/-- ASCII fragment of Go `strings.ToLower`. -/
def goToLower (s : String) : String := ⟨s.data.map goLowerChar⟩

/-- ASCII fragment of Go `unicode.IsSpace`. -/
def goIsSpace (c : Char) : Bool :=
  c == ' ' || c == '\t' || c == '\n' || c == '\r' || c == '\x0b' || c == '\x0c'

/-- ASCII fragment of Go `strings.TrimSpace`. -/
def goTrim (s : String) : String :=
  ⟨((s.data.dropWhile goIsSpace).reverse.dropWhile goIsSpace).reverse⟩

/-- The truthiness test shared by `evaluateCondition` and `isTruthy`:
`strings.TrimSpace(strings.ToLower(result))` is falsy iff it is
`""`, `"false"`, `"0"` or `"no"`. -/
def truthyStr (result : String) : Bool :=
  let r := goTrim (goToLower result)
  r != "" && r != "false" && r != "0" && r != "no"

/-- `evaluateCondition` from tasks.go. -/
def evaluateCondition (when : Tmpl) (vars : VarMap) : Except String Bool :=
  if tmplSrc when == "" then .ok true
  else
    match expandVars when vars with
    | .error e => .error e
    | .ok result => .ok (truthyStr result)

/-- `isTruthy` from tasks.go (used for `changed_when`). -/
def isTruthy (expr : Tmpl) (vars : VarMap) : Bool :=
  match expandVars expr vars with
  | .error _ => false
  | .ok result => truthyStr result

/-! ## Tag filtering -/

/-- `matchesTags` from tasks.go. -/
def matchesTags (taskTags filterTags skipTags : List String) : Bool :=
  if skipTags.any (fun st => taskTags.any (fun tt => st == tt)) then false
  else if filterTags.isEmpty then true
  else filterTags.any (fun ft => taskTags.any (fun tt => ft == tt))

/-! ## Vault codec (`pkg/vault/vault.go`) -/

/-- Byte string of `vault.Prefix` (`"$FORVAULT;"`), the vault token marker. -/
def vaultHeader : List Nat := "$FORVAULT;".toList.map Char.toNat

/-- Abstraction of the Go standard-library primitives used by the vault:
AES-256-GCM seal/open (key derivation by SHA-256 over the password folded in)
and the standard base64 codec, together with their round-trip laws. -/
structure GCM where
  nonceSize : Nat
  sealFn : List Nat → List Nat → List Nat → List Nat
  openFn : List Nat → List Nat → List Nat → Option (List Nat)
  b64encode : List Nat → List Nat
  b64decode : List Nat → Option (List Nat)
  open_seal : ∀ w n p, openFn w n (sealFn w n p) = some p
  b64_round : ∀ bs, b64decode (b64encode bs) = some bs

/-- `vault.Encrypt`: prefix + base64(nonce ‖ GCM-sealed plaintext); the random
nonce drawn from `crypto/rand` is passed explicitly. -/
def Encrypt (G : GCM) (plaintext password nonce : List Nat) : List Nat :=
  vaultHeader ++ G.b64encode (nonce ++ G.sealFn password nonce plaintext)

/-- `vault.Decrypt`: pass-through without the marker; otherwise base64-decode,
split off the nonce and open the ciphertext. -/
def Decrypt (G : GCM) (ciphertext password : List Nat) : Except String (List Nat) :=
  if ¬ vaultHeader.isPrefixOf ciphertext then .ok ciphertext
  else
    match G.b64decode (ciphertext.drop vaultHeader.length) with
    | none => .error "vault decode"
    | some data =>
      if data.length < G.nonceSize then .error "vault: ciphertext too short"
      else
        match G.openFn password (data.take G.nonceSize) (data.drop G.nonceSize) with
        | none => .error "vault decrypt"
        | some plain => .ok plain

/-! ## Data types (`pkg/tasks/tasks.go`) -/

/-- `inventory.Host`: an address and per-host variables. -/
structure Host where
  address : String
  vars : VarMap := []
deriving DecidableEq, Repr

/-- `tasks.CopyTask`. -/
structure CopyTask where
  src : String
  dest : String
deriving DecidableEq, Repr

/-- `tasks.Task`.  Template-valued fields (`command`, `when`, `changed_when`)
are pre-parsed templates; `with_items` values are modelled as strings. -/
structure Task where
  name : String := ""
  command : Tmpl := []
  copy : Option CopyTask := none
  ignoreErrors : Bool := false
  tags : List String := []
  notify : String := ""
  whenCond : Tmpl := []
  withItems : List String := []
  timeout : String := ""
  retries : Nat := 0
  delay : String := ""
  register : String := ""
  changedWhen : Tmpl := []
deriving DecidableEq, Repr

/-- `tasks.TaskResult`. -/
structure TaskResult where
  output : String := ""
  changed : Bool := false
  failed : Bool := false
  rc : Nat := 0
deriving DecidableEq, Repr

/-- `tasks.Handler`. -/
structure Handler where
  name : String
  command : Tmpl := []
deriving DecidableEq, Repr

/-- `printer.HostSummary`. -/
structure HostSummary where
  host : String := ""
  ok : Nat := 0
  changed : Nat := 0
  failed : Nat := 0
  skipped : Nat := 0
  ignored : Nat := 0
deriving DecidableEq, Repr

/-- The `tasks.RunOptions` fields the engine consults (SSH credentials are
folded into the execution oracle). -/
structure RunOptions where
  runLocally : Bool := false
  dryRun : Bool := false
  failFast : Bool := false
  forks : Nat := 5
  tags : List String := []
  skipTags : List String := []
  gatherFacts : Bool := false
deriving Repr

/-- Execution oracle: the observable outcome of every side-effecting call made
by `runOnce` (local or SSH command/script execution, file copy), the
`time.ParseDuration` results, the outcome of the timeout race in
`runWithTimeout`, and the fact gatherer. -/
structure ExecEnv where
  copyRes : String → String → String → Option String
  cmdRes : String → String → String × Option String
  parseDuration : String → Option Nat
  timerWins : String → String → Bool
  gatherLocal : VarMap := []
  gatherRemote : String → VarMap := fun _ => []

/-! ## Task executor (`runOnce`, `runWithTimeout`, `runWithRetry`, `executeTask`) -/

/-- `runOnce` from tasks.go: expand the command, handle dry-run, dispatch to
the copy or command backend, then apply `changed_when`. -/
def runOnce (env : ExecEnv) (host : Host) (task : Task) (opts : RunOptions)
    (vars : VarMap) : TaskResult × Option String :=
  match expandVars task.command vars with
  | .error e => ({ failed := true }, some ("template: " ++ e))
  | .ok cmd =>
    if opts.dryRun then ({}, none)
    else
      match task.copy with
      | some c =>
        match env.copyRes host.address c.src c.dest with
        | some e => ({ failed := true, rc := 1 }, some e)
        | none => ({ changed := true }, none)
      | none =>
        let pr := env.cmdRes host.address cmd
        let output := pr.1
        let err := pr.2
        let res0 : TaskResult :=
          { output := output, failed := err.isSome, rc := if err.isSome then 1 else 0 }
        let res :=
          if tmplSrc task.changedWhen == "" then { res0 with changed := !res0.failed }
          else
            { res0 with
              changed := isTruthy task.changedWhen (mergeVars [vars, [("output", output)]]) }
        (res, err)

/-- `runWithTimeout` from tasks.go: invalid duration fails; otherwise the
timeout race outcome is drawn from the oracle. -/
def runWithTimeout (env : ExecEnv) (host : Host) (timeout : String)
    (fn : Unit → TaskResult × Option String) : TaskResult × Option String :=
  match env.parseDuration timeout with
  | none => ({ failed := true }, some ("invalid timeout " ++ timeout))
  | some _ =>
    if env.timerWins host.address timeout then
      ({ failed := true }, some ("timed out after " ++ timeout))
    else fn ()

/-- The attempt loop of `runWithRetry`: first success wins, else the last
result is returned (`n` is the number of remaining retries). -/
def retryLoop (fn : Unit → TaskResult × Option String) :
    Nat → TaskResult × Option String
  | 0 => fn ()
  | n + 1 =>
    match fn () with
    | (r, none) => (r, none)
    | (_, some _) => retryLoop fn n

/-- `runWithRetry` from tasks.go (the inter-attempt sleep has no observable
effect in the model). -/
def runWithRetry (retries : Nat) (delay : String) (env : ExecEnv)
    (fn : Unit → TaskResult × Option String) : TaskResult × Option String :=
  if delay != "" ∧ (env.parseDuration delay).isNone then
    ({ failed := true }, some ("invalid delay " ++ delay))
  else retryLoop fn retries

/-- The `with_items` loop of `executeTask`: accumulate outputs and `changed`,
stop at the first non-ignored failure. -/
def itemsLoop (run : VarMap → TaskResult × Option String) (ignoreErrors : Bool) :
    List String → TaskResult → TaskResult × Option String
  | [], acc => (acc, none)
  | item :: rest, acc =>
    let p := run [("item", item)]
    let res := p.1
    let acc :=
      { acc with output := acc.output ++ res.output, changed := acc.changed || res.changed }
    match p.2 with
    | none => itemsLoop run ignoreErrors rest acc
    | some e =>
      let acc := { acc with failed := true }
      if ignoreErrors then itemsLoop run ignoreErrors rest acc else (acc, some e)

/-- `executeTask` from tasks.go: gate on `when`, expand the iteration set, and
wrap the invocation in the timeout and retry combinators. -/
def executeTask (env : ExecEnv) (host : Host) (task : Task) (opts : RunOptions)
    (vars : VarMap) : TaskResult × Option String :=
  match evaluateCondition task.whenCond vars with
  | .error e => ({ failed := true }, some ("when eval: " ++ e))
  | .ok false => ({}, none)
  | .ok true =>
    let run := fun (loopVars : VarMap) =>
      let merged := mergeVars [vars, loopVars]
      let fn0 := fun (_ : Unit) => runOnce env host task opts merged
      let fn :=
        if task.timeout != "" then fun (_ : Unit) => runWithTimeout env host task.timeout fn0
        else fn0
      if task.retries > 0 then runWithRetry task.retries task.delay env fn else fn ()
    if task.withItems.isEmpty then run []
    else itemsLoop run task.ignoreErrors task.withItems {}

/-! ## Per-host runner (`runHostTasks`) -/

/-- Result classification: the `switch` in `runHostTasks`. -/
inductive Outcome
  | failed
  | ignored
  | skipped
  | changed
  | ok
deriving DecidableEq, Repr

/-- The classification `switch` of `runHostTasks` as a function of the task
and the `executeTask` result. -/
def classify (task : Task) (res : TaskResult) (err : Option String) : Outcome :=
  if err.isSome then (if task.ignoreErrors then .ignored else .failed)
  else if !res.changed && !res.failed && tmplSrc task.whenCond != "" && res.output == "" then
    .skipped
  else if res.changed then .changed
  else .ok

/-- Observable execution events: a task body or a handler body being run. -/
inductive Event
  | taskRun (host tname : String)
  | handlerRun (host hname : String)
deriving DecidableEq, Repr

/-- How many times the command of handler `k` was executed on host `a`. -/
def countHandlerRuns (evs : List Event) (a k : String) : Nat :=
  evs.countP fun e =>
    match e with
    | .handlerRun a' n => a' == a && n == k
    | _ => false

/-- State threaded through the task loop of `runHostTasks`. -/
structure LoopState where
  vars : VarMap
  notified : List String := []
  summary : HostSummary
  events : List Event := []
  stopped : Bool := false
deriving DecidableEq, Repr

/-- The task loop of `runHostTasks`: tag filter, execute, register, classify,
record notifications, honour fail-fast. -/
def runTasksLoop (env : ExecEnv) (host : Host) (opts : RunOptions) :
    List Task → LoopState → LoopState
  | [], st => st
  | t :: rest, st =>
    if !matchesTags t.tags opts.tags opts.skipTags then
      runTasksLoop env host opts rest
        { st with summary := { st.summary with skipped := st.summary.skipped + 1 } }
    else
      let st := { st with events := st.events ++ [Event.taskRun host.address t.name] }
      let p := executeTask env host t opts st.vars
      let res := p.1
      let err := p.2
      let st :=
        if t.register != "" then { st with vars := varSet st.vars t.register res.output }
        else st
      match classify t res err with
      | .failed =>
        let st := { st with summary := { st.summary with failed := st.summary.failed + 1 } }
        if opts.failFast then { st with stopped := true }
        else runTasksLoop env host opts rest st
      | .ignored =>
        runTasksLoop env host opts rest
          { st with summary := { st.summary with ignored := st.summary.ignored + 1 } }
      | .skipped =>
        runTasksLoop env host opts rest
          { st with summary := { st.summary with skipped := st.summary.skipped + 1 } }
      | .changed =>
        runTasksLoop env host opts rest
          { st with
            summary := { st.summary with changed := st.summary.changed + 1 }
            notified := if t.notify != "" then t.notify :: st.notified else st.notified }
      | .ok =>
        runTasksLoop env host opts rest
          { st with
            summary := { st.summary with ok := st.summary.ok + 1 }
            notified := if t.notify != "" then t.notify :: st.notified else st.notified }

/-- The handler loop of `runHostTasks`: fire each declared handler whose name
was notified, classifying the result. -/
def runHandlersLoop (env : ExecEnv) (host : Host) (opts : RunOptions) (vars : VarMap)
    (notified : List String) :
    List Handler → HostSummary → List Event → HostSummary × List Event
  | [], sum, evs => (sum, evs)
  | h :: rest, sum, evs =>
    if h.name ∈ notified then
      let evs := evs ++ [Event.handlerRun host.address h.name]
      let p := executeTask env host { name := h.name, command := h.command } opts vars
      let sum :=
        match p.2 with
        | some _ => { sum with failed := sum.failed + 1 }
        | none =>
          if p.1.changed then { sum with changed := sum.changed + 1 }
          else { sum with ok := sum.ok + 1 }
      runHandlersLoop env host opts vars notified rest sum evs
    else runHandlersLoop env host opts vars notified rest sum evs

/-- `runHostTasks` from tasks.go: run every service task, then fire notified
handlers (the fail-fast early return skips the handlers). -/
def runHostTasks (env : ExecEnv) (host : Host) (serviceTasks : List Task)
    (handlers : List Handler) (opts : RunOptions) (vars : VarMap) :
    HostSummary × List Event :=
  let st0 : LoopState := { vars := vars, summary := { host := host.address } }
  let st := runTasksLoop env host opts serviceTasks st0
  if st.stopped then (st.summary, st.events)
  else runHandlersLoop env host opts st.vars st.notified handlers st.summary st.events

/-! ## Service loader (`LoadServiceMeta`, `LoadServiceTasks`, `loadWithDeps`) -/

/-- The result of reading and unmarshalling one on-disk file. -/
inductive FileRes (α : Type)
  | missing
  | fileErr (e : String)
  | ok (a : α)
deriving DecidableEq, Repr

/-- The on-disk service tree under `servicesPath`: for each service name, its
`meta/main.yaml` dependency list and its `tasks/main.yaml` task list. -/
structure ServicesDir where
  metaOf : String → FileRes (List String)
  tasksOf : String → FileRes (List Task)

/-- `LoadServiceMeta` from tasks.go: a missing meta file is an empty
dependency list, not an error. -/
def LoadServiceMeta (d : ServicesDir) (name : String) : Except String (List String) :=
  match d.metaOf name with
  | .missing => .ok []
  | .fileErr e => .error e
  | .ok deps => .ok deps

/-- `LoadServiceTasks` from tasks.go: a missing tasks file IS an error. -/
def LoadServiceTasks (d : ServicesDir) (name : String) : Except String (List Task) :=
  match d.tasksOf name with
  | .missing => .error ("open tasks/main.yaml: no such file for " ++ name)
  | .fileErr e => .error e
  | .ok ts => .ok ts

/-- `loadWithDeps` from tasks.go, with the recursion over a service name
(`Sum.inl`) and over a dependency list (`Sum.inr`) combined into one
fuel-indexed function so that it is structurally recursive; the Go code
recurses directly on the finite on-disk graph.  The visited set is the
recursion's threaded `visited` map. -/
def loadStep (d : ServicesDir) :
    Nat → String ⊕ List String → List String → Except String (List Task × List String)
  | 0, _, _ => .error "model: recursion fuel exhausted"
  | f + 1, .inl name, vis =>
    if name ∈ vis then .ok ([], vis)
    else
      match LoadServiceMeta d name with
      | .error e => .error e
      | .ok deps =>
        match loadStep d f (.inr deps) (name :: vis) with
        | .error e => .error e
        | .ok (all, vis2) =>
          match LoadServiceTasks d name with
          | .error e => .error e
          | .ok own => .ok (all ++ own, vis2)
  | _ + 1, .inr [], vis => .ok ([], vis)
  | f + 1, .inr (dep :: rest), vis =>
    match loadStep d f (.inl dep) vis with
    | .error e => .error ("dependency " ++ dep ++ ": " ++ e)
    | .ok (ts, vis2) =>
      match loadStep d f (.inr rest) vis2 with
      | .error e => .error e
      | .ok (ts2, vis3) => .ok (ts ++ ts2, vis3)

/-- `LoadServiceTasksWithDeps` from tasks.go: resolve a service with its
transitive dependencies starting from an empty visited set. -/
def LoadServiceTasksWithDeps (d : ServicesDir) (fuel : Nat) (name : String) :
    Except String (List Task) :=
  (loadStep d fuel (.inl name) []).map (·.1)

/-- The task list a successful load returns for one service. -/
def tasksOk (d : ServicesDir) (n : String) : List Task :=
  match d.tasksOf n with
  | .ok ts => ts
  | _ => []

/-! ## Play engine (`RunPlaybook`) -/

/-- `tasks.Play`: service references are the referenced service names. -/
structure Play where
  name : String := ""
  hosts : String := ""
  services : List String := []
  handlers : List Handler := []
  vars : VarMap := []
  tags : List String := []

/-- `inventory.Inventory`: group name to hosts / group vars. -/
structure Inventory where
  hostsOf : String → Option (List Host)
  groupVarsOf : String → VarMap := fun _ => []

/-- Accumulated engine state: the recap map, the `overallFailed` flag and the
trace of executed task/handler bodies. -/
structure RunState where
  summaries : List (String × HostSummary) := []
  overallFailed : Bool := false
  events : List Event := []
deriving DecidableEq, Repr

/-- Fold one worker's summary into the recap map (the mutex-guarded counter
additions of `RunPlaybook`). -/
def bumpSummary (m : List (String × HostSummary)) (addr : String) (s : HostSummary) :
    List (String × HostSummary) :=
  match m with
  | [] =>
    [(addr,
      { host := addr, ok := s.ok, changed := s.changed, failed := s.failed,
        skipped := s.skipped, ignored := s.ignored })]
  | (a, t) :: rest =>
    if a == addr then
      (a,
        { host := addr, ok := t.ok + s.ok, changed := t.changed + s.changed,
          failed := t.failed + s.failed, skipped := t.skipped + s.skipped,
          ignored := t.ignored + s.ignored }) :: rest
    else (a, t) :: bumpSummary rest addr s

/-- One service's per-host workers.  The goroutines of `RunPlaybook` are
sequentialised; each worker touches only its own host's data, so the per-host
projections of this fold agree with every real interleaving. -/
def runServiceHosts (env : ExecEnv) (opts : RunOptions) (play : Play)
    (groupVars localFacts : VarMap) (serviceTasks : List Task) :
    List Host → RunState → RunState
  | [], rs => rs
  | h :: rest, rs =>
    let hostFacts :=
      if opts.gatherFacts && !opts.runLocally then env.gatherRemote h.address
      else localFacts
    let vars := mergeVars [play.vars, groupVars, h.vars, hostFacts]
    let p := runHostTasks env h serviceTasks play.handlers opts vars
    let rs :=
      { summaries := bumpSummary rs.summaries h.address p.1
        overallFailed := rs.overallFailed || decide (p.1.failed > 0)
        events := rs.events ++ p.2 }
    runServiceHosts env opts play groupVars localFacts serviceTasks rest rs

/-- The service loop of one play: load each service (load errors skip the
service), run all hosts, and stop at the service boundary when `fail_fast`
has been triggered. -/
def runPlayServices (env : ExecEnv) (d : ServicesDir) (fuel : Nat) (opts : RunOptions)
    (play : Play) (hosts : List Host) (groupVars localFacts : VarMap) :
    List String → RunState → RunState
  | [], rs => rs
  | svc :: rest, rs =>
    match LoadServiceTasksWithDeps d fuel svc with
    | .error _ => runPlayServices env d fuel opts play hosts groupVars localFacts rest rs
    | .ok serviceTasks =>
      let rs := runServiceHosts env opts play groupVars localFacts serviceTasks hosts rs
      if rs.overallFailed && opts.failFast then rs
      else runPlayServices env d fuel opts play hosts groupVars localFacts rest rs

/-- The play loop of `RunPlaybook`: tag-filter each play, resolve its hosts,
gather local facts once, run its services, and stop at the play boundary when
`fail_fast` has been triggered. -/
def runPlays (env : ExecEnv) (d : ServicesDir) (fuel : Nat) (inv : Inventory)
    (opts : RunOptions) : List Play → RunState → RunState
  | [], rs => rs
  | play :: rest, rs =>
    if !matchesTags play.tags opts.tags opts.skipTags then
      runPlays env d fuel inv opts rest rs
    else
      let resolved : Option (List Host × VarMap) :=
        if opts.runLocally then some ([{ address := "localhost" }], [])
        else
          match inv.hostsOf play.hosts with
          | none => none
          | some hs => some (hs, inv.groupVarsOf play.hosts)
      match resolved with
      | none => runPlays env d fuel inv opts rest rs
      | some (hosts, groupVars) =>
        let localFacts :=
          if opts.gatherFacts && opts.runLocally then env.gatherLocal else []
        let rs := runPlayServices env d fuel opts play hosts groupVars localFacts play.services rs
        if rs.overallFailed && opts.failFast then rs
        else runPlays env d fuel inv opts rest rs

/-- `RunPlaybook` from tasks.go, as a function from the playbook, inventory,
execution oracle and on-disk services to the final recap state and trace. -/
def RunPlaybook (env : ExecEnv) (d : ServicesDir) (fuel : Nat)
    (playbook : List Play) (inv : Inventory) (opts : RunOptions) : RunState :=
  runPlays env d fuel inv opts playbook {}

/-! ## Concrete fixtures used by witnesses and counterexamples -/

/-- An execution oracle where every command succeeds with output `"out"`. -/
def env0 : ExecEnv :=
  { copyRes := fun _ _ _ => none
    cmdRes := fun _ _ => ("out", none)
    parseDuration := fun _ => none
    timerWins := fun _ _ => false }

/-- An execution oracle where every command succeeds with empty output. -/
def envQ : ExecEnv :=
  { copyRes := fun _ _ _ => none
    cmdRes := fun _ _ => ("", none)
    parseDuration := fun _ => none
    timerWins := fun _ _ => false }

/-- A host fixture. -/
def host1 : Host := { address := "h1" }

/-- A task that notifies handler `K`. -/
def notifyTask (nm : String) : Task := { name := nm, command := [.lit "c"], notify := "K" }

/-- Two services, each with one task notifying handler `K`; no dependencies. -/
def dir2 : ServicesDir :=
  { metaOf := fun _ => .ok []
    tasksOf := fun n =>
      if n == "s1" then .ok [notifyTask "t1"]
      else if n == "s2" then .ok [notifyTask "t2"]
      else .missing }

/-- A play running both services of `dir2` and declaring handler `K`. -/
def play0 : Play :=
  { name := "p", hosts := "web", services := ["s1", "s2"]
    handlers := [{ name := "K", command := [.lit "c"] }] }

/-- An inventory with a single group `web` holding `host1`. -/
def inv0 : Inventory := { hostsOf := fun g => if g == "web" then some [host1] else none }

/-- A task that runs (truthy `when`) but produces no output and is not
changed (`changed_when` is the literal `false`). -/
def tQuiet : Task :=
  { name := "q", command := [.lit "c"], whenCond := [.lit "yes"]
    changedWhen := [.lit "false"] }

/-- A registering task whose `when` condition is the falsy literal `no`. -/
def tReg : Task :=
  { name := "r", command := [.lit "c"], register := "res1", whenCond := [.lit "no"] }

/-- A copy task with a notify target. -/
def tCopy : Task :=
  { name := "cp", copy := some { src := "a.txt", dest := "b.txt" }, notify := "K" }

/-- Two mutually dependent (cyclic) services `a` and `b`. -/
def dirCyc : ServicesDir :=
  { metaOf := fun n =>
      if n == "a" then .ok ["b"] else if n == "b" then .ok ["a"] else .missing
    tasksOf := fun n =>
      if n == "a" then .ok [{ name := "ta" }]
      else if n == "b" then .ok [{ name := "tb" }]
      else .missing }

/-- A trivial instance of the cipher/codec interface (identity cipher),
used to instantiate theorems quantified over `GCM`. -/
def G0 : GCM :=
  { nonceSize := 12
    sealFn := fun _ _ p => p
    openFn := fun _ _ c => some c
    b64encode := id
    b64decode := some
    open_seal := fun _ _ _ => rfl
    b64_round := fun _ => rfl }

/-! ## Helper lemmas -/

theorem varGet_append (a b : VarMap) (k : String) :
    varGet (a ++ b) k = (varGet a k).or (varGet b k) := by
  induction a with
  | nil => simp [varGet]
  | cons p rest ih =>
    obtain ⟨k', v⟩ := p
    by_cases h : k' == k <;> simp [varGet, h, ih, Option.or]

theorem varGet_varSet_self (m : VarMap) (k v : String) :
    varGet (varSet m k v) k = some v := by
  simp [varGet, varSet]

theorem isPrefixOf_append_self (a b : List Nat) : a.isPrefixOf (a ++ b) = true := by
  induction a with
  | nil => simp [List.isPrefixOf]
  | cons x rest ih => simp [List.isPrefixOf, ih]

/-! ## C2: vault round-trip and pass-through -/

/-- C2: for every plaintext `p`, password `w` and correctly sized nonce,
`Decrypt (Encrypt p w) w` returns `p` with no error; and every string `x`
lacking the `$FORVAULT;` marker is returned unchanged with no error. -/
theorem vault_roundtrip_and_passthrough (G : GCM) (p w nonce x : List Nat)
    (hn : nonce.length = G.nonceSize) (hx : ¬ vaultHeader.isPrefixOf x) :
    Decrypt G (Encrypt G p w nonce) w = .ok p ∧ Decrypt G x w = .ok x := by
  constructor
  · have hpre : vaultHeader.isPrefixOf
        (vaultHeader ++ G.b64encode (nonce ++ G.sealFn w nonce p)) = true :=
      isPrefixOf_append_self _ _
    have hdrop : (vaultHeader ++ G.b64encode (nonce ++ G.sealFn w nonce p)).drop
        vaultHeader.length = G.b64encode (nonce ++ G.sealFn w nonce p) :=
      List.drop_left _ _
    have hlen : ¬ (nonce ++ G.sealFn w nonce p).length < G.nonceSize := by
      rw [List.length_append, hn]; omega
    have htake : (nonce ++ G.sealFn w nonce p).take G.nonceSize = nonce := by
      rw [← hn]; exact List.take_left _ _
    have hdrop2 : (nonce ++ G.sealFn w nonce p).drop G.nonceSize = G.sealFn w nonce p := by
      rw [← hn]; exact List.drop_left _ _
    simp [Decrypt, Encrypt, hpre, hdrop, G.b64_round, hlen, htake, hdrop2, G.open_seal]
    omega
  · simp [Decrypt, hx]

/-- Witness for C2 at the identity cipher instance: the hypotheses hold at a
length-12 nonce and a non-token string, and both conclusions evaluate. -/
theorem vault_roundtrip_and_passthrough_witness :
    (List.replicate 12 (0 : Nat)).length = G0.nonceSize ∧
    ¬ vaultHeader.isPrefixOf [65] ∧
    Decrypt G0 (Encrypt G0 [1, 2] [] (List.replicate 12 0)) [] = .ok [1, 2] ∧
    Decrypt G0 [65] [] = .ok [65] :=
  ⟨rfl, by decide,
    (vault_roundtrip_and_passthrough G0 [1, 2] [] (List.replicate 12 0) [65] rfl
      (by decide)).1,
    (vault_roundtrip_and_passthrough G0 [1, 2] [] (List.replicate 12 0) [65] rfl
      (by decide)).2⟩

/-! ## C3: variable precedence -/

/-- C3: in the merged scope built exactly as the engine builds it
(`mergeVars(play.Vars, groupVars, hostVars, hostFacts)` in `RunPlaybook`, the
`vars[task.Register] = output` write in `runHostTasks`, and
`mergeVars(vars, loopVars)` in `executeTask`), a conflicting key resolves with
precedence play < group < host < facts < registered < item. -/
theorem var_precedence (playV groupV hostV factsV : VarMap) (rn rv iv k : String) :
    varGet (mergeVars [varSet (mergeVars [playV, groupV, hostV, factsV]) rn rv,
        [("item", iv)]]) k
      = ((varGet [("item", iv)] k).or
        ((varGet [(rn, rv)] k).or
        ((varGet factsV k).or
        ((varGet hostV k).or
        ((varGet groupV k).or (varGet playV k)))))) := by
  have hcons : ∀ (a b : String) (l : VarMap),
      varGet ((a, b) :: l) k = (varGet [(a, b)] k).or (varGet l k) := by
    intro a b l
    by_cases h : a == k <;> simp [varGet, h, Option.or]
  have expand : mergeVars [varSet (mergeVars [playV, groupV, hostV, factsV]) rn rv,
      [("item", iv)]]
      = [("item", iv)] ++ ([(rn, rv)] ++ (factsV ++ (hostV ++ (groupV ++ playV)))) := by
    simp [mergeVars, mergeTwo, varSet]
  rw [expand]
  simp only [varGet_append]

/-! ## C8: tag filtering -/

/-- C8: a task runs iff (the filter is empty or the task's tags intersect the
filter) and the skip-tags do not intersect the task's tags; an untagged task
runs exactly when the filter is empty. -/
theorem tag_filter_iff (t f s : List String) :
    (matchesTags t f s = true ↔
      ((f = [] ∨ ∃ x, x ∈ t ∧ x ∈ f) ∧ ∀ x ∈ s, x ∉ t)) ∧
    matchesTags [] f s = f.isEmpty := by
  have hA : ((s.any fun st => t.any fun tt => st == tt) = true) ↔ ∃ x ∈ s, x ∈ t := by
    simp only [List.any_eq_true, beq_iff_eq]
    constructor
    · rintro ⟨x, hxs, y, hyt, rfl⟩; exact ⟨x, hxs, hyt⟩
    · rintro ⟨x, hxs, hxt⟩; exact ⟨x, hxs, x, hxt, rfl⟩
  have hC : ((f.any fun ft => t.any fun tt => ft == tt) = true) ↔ ∃ x ∈ f, x ∈ t := by
    simp only [List.any_eq_true, beq_iff_eq]
    constructor
    · rintro ⟨x, hxf, y, hyt, rfl⟩; exact ⟨x, hxf, hyt⟩
    · rintro ⟨x, hxf, hxt⟩; exact ⟨x, hxf, x, hxt, rfl⟩
  constructor
  · by_cases ha : ∃ x ∈ s, x ∈ t
    · have hAt : (s.any fun st => t.any fun tt => st == tt) = true := hA.mpr ha
      simp only [matchesTags, hAt, if_true]
      constructor
      · intro h; exact absurd h (by simp)
      · rintro ⟨-, hdisj⟩
        obtain ⟨x, hxs, hxt⟩ := ha
        exact absurd hxt (hdisj x hxs)
    · have hAf : (s.any fun st => t.any fun tt => st == tt) = false := by
        cases hx : (s.any fun st => t.any fun tt => st == tt)
        · rfl
        · exact absurd (hA.mp hx) ha
      have hdisj : ∀ x ∈ s, x ∉ t := fun x hxs hxt => ha ⟨x, hxs, hxt⟩
      simp only [matchesTags, hAf, Bool.false_eq_true, if_false]
      by_cases hf : f = []
      · subst hf
        simp only [List.isEmpty_nil, if_true, true_iff]
        exact ⟨Or.inl trivial, hdisj⟩
      · have hfe : f.isEmpty = false := by
          cases hy : f.isEmpty
          · rfl
          · exact absurd (List.isEmpty_iff.mp hy) hf
        simp only [hfe, Bool.false_eq_true, if_false]
        rw [hC]
        constructor
        · rintro ⟨x, hxf, hxt⟩; exact ⟨Or.inr ⟨x, hxt, hxf⟩, hdisj⟩
        · rintro ⟨hf' | ⟨x, hxt, hxf⟩, -⟩
          · exact absurd hf' hf
          · exact ⟨x, hxf, hxt⟩
  · have hA0 : (s.any fun st => List.any [] fun tt => st == tt) = false := by simp
    have hC0 : (f.any fun ft => List.any [] fun tt => ft == tt) = false := by simp
    simp only [matchesTags, hA0, hC0, Bool.false_eq_true, if_false]
    cases hb : f.isEmpty <;> simp

/-! ## C6: truthiness of conditions -/

theorem truthyStr_false_iff (s : String) :
    truthyStr s = false ↔
      (goTrim (goToLower s) = "" ∨ goTrim (goToLower s) = "false" ∨
        goTrim (goToLower s) = "0" ∨ goTrim (goToLower s) = "no") := by
  simp only [truthyStr, Bool.and_eq_false_iff, bne_eq_false_iff_eq]
  tauto

/-- C6: for every non-empty condition expression and every scope, the
substitution succeeds, and the condition evaluates to false iff the
substituted result, lowercased and trimmed, is empty, `false`, `0` or `no`
(for both `when` via `evaluateCondition` and `changed_when` via `isTruthy`). -/
theorem truthiness_iff (expr : Tmpl) (vars : VarMap) (hne : tmplSrc expr ≠ "") :
    ∃ s, expandVars expr vars = .ok s ∧
      (evaluateCondition expr vars = .ok false ↔
        (goTrim (goToLower s) = "" ∨ goTrim (goToLower s) = "false" ∨
          goTrim (goToLower s) = "0" ∨ goTrim (goToLower s) = "no")) ∧
      (isTruthy expr vars = false ↔
        (goTrim (goToLower s) = "" ∨ goTrim (goToLower s) = "false" ∨
          goTrim (goToLower s) = "0" ∨ goTrim (goToLower s) = "no")) := by
  have hbe : (tmplSrc expr == "") = false := beq_eq_false_iff_ne.mpr hne
  obtain ⟨s, hs⟩ : ∃ s, expandVars expr vars = .ok s := by
    unfold expandVars
    by_cases h : vars.isEmpty <;> simp [h, hbe]
  refine ⟨s, hs, ?_, ?_⟩
  · unfold evaluateCondition
    rw [hbe, hs]
    simp [truthyStr_false_iff]
  · unfold isTruthy
    rw [hs]
    simp [truthyStr_false_iff]

/-- Witness for C6 at the falsy literal `no` and an empty scope. -/
theorem truthiness_iff_witness :
    tmplSrc [Piece.lit "no"] ≠ "" ∧
    ∃ s, expandVars [Piece.lit "no"] [] = .ok s ∧
      (evaluateCondition [Piece.lit "no"] [] = .ok false ↔
        (goTrim (goToLower s) = "" ∨ goTrim (goToLower s) = "false" ∨
          goTrim (goToLower s) = "0" ∨ goTrim (goToLower s) = "no")) ∧
      (isTruthy [Piece.lit "no"] [] = false ↔
        (goTrim (goToLower s) = "" ∨ goTrim (goToLower s) = "false" ∨
          goTrim (goToLower s) = "0" ∨ goTrim (goToLower s) = "no")) :=
  ⟨by decide, truthiness_iff [Piece.lit "no"] [] (by decide)⟩

/-! ## C7: missing template keys -/

/-- C7 counterexample: a reference to a name absent from a non-empty scope
renders as `<no value>` (not the empty string), so a `when` expression
consisting only of such references evaluates to `true` (not `false`). -/
theorem missing_key_renders_no_value :
    expandVars [Piece.ref "name"] [("x", "1")] = .ok "<no value>" ∧
    evaluateCondition [Piece.ref "name"] [("x", "1")] = .ok true :=
  ⟨rfl, rfl⟩

/-- C7 amended: substituting a reference to a name not defined in a
non-empty scope produces `<no value>` with no error, and a `when` expression
consisting only of such a reference evaluates to true. -/
theorem missing_key_amended (k : String) (vars : VarMap)
    (hvars : vars ≠ []) (hmiss : varGet vars k = none) :
    expandVars [Piece.ref k] vars = .ok "<no value>" ∧
    evaluateCondition [Piece.ref k] vars = .ok true := by
  have hie : vars.isEmpty = false := by
    cases hv : vars.isEmpty
    · rfl
    · exact absurd (List.isEmpty_iff.mp hv) hvars
  have hsrc : tmplSrc [Piece.ref k] = "\x7b\x7b ." ++ k ++ " \x7d\x7d" := by
    show "" ++ ("\x7b\x7b ." ++ k ++ " \x7d\x7d") = _
    simp
  have hne : (tmplSrc [Piece.ref k] == "") = false := by
    refine beq_eq_false_iff_ne.mpr ?_
    rw [hsrc]
    intro h
    have h2 := congrArg String.data h
    simp [String.data_append] at h2
  have hrender : render [Piece.ref k] vars = "<no value>" := by
    show "" ++ renderPiece vars (Piece.ref k) = _
    simp [renderPiece, hmiss]
  have hexp : expandVars [Piece.ref k] vars = .ok "<no value>" := by
    unfold expandVars
    rw [hie, hne, hrender]
    rfl
  refine ⟨hexp, ?_⟩
  have htr : truthyStr "<no value>" = true := by decide
  unfold evaluateCondition
  rw [hne, hexp]
  simp [htr]

/-- Witness for C7's amended statement at a concrete scope. -/
theorem missing_key_amended_witness :
    ([("x", "1")] : VarMap) ≠ [] ∧ varGet [("x", "1")] "name" = none ∧
    (expandVars [Piece.ref "name"] [("x", "1")] = .ok "<no value>" ∧
      evaluateCondition [Piece.ref "name"] [("x", "1")] = .ok true) :=
  ⟨by decide, by decide, missing_key_amended "name" [("x", "1")] (by decide) (by decide)⟩

/-! ## C5: result classification -/

theorem evaluateCondition_empty (w : Tmpl) (vars : VarMap) (h : tmplSrc w = "") :
    evaluateCondition w vars = .ok true := by
  have : (tmplSrc w == "") = true := beq_iff_eq.mpr h
  simp [evaluateCondition, this]

theorem executeTask_gated (env : ExecEnv) (host : Host) (t : Task) (opts : RunOptions)
    (vars : VarMap) (h : evaluateCondition t.whenCond vars = .ok false) :
    executeTask env host t opts vars = ({}, none) := by
  simp [executeTask, h]

/-- C5 amended: the outcome of each executed task is exactly one of
failed/ignored/skipped/changed/ok, with: error and not ignore_errors →
failed; error and ignore_errors → ignored; no error, not changed, not failed,
non-empty `when` and empty output → skipped; no error and changed → changed;
otherwise ok.  A task whose `when` condition is falsy returns the zero result
and is classified skipped. -/
theorem classification_mapping (t : Task) (res : TaskResult) (err : Option String)
    (env : ExecEnv) (host : Host) (opts : RunOptions) (vars : VarMap) :
    (classify t res err = .failed ↔ err ≠ none ∧ t.ignoreErrors = false)
    ∧ (classify t res err = .ignored ↔ err ≠ none ∧ t.ignoreErrors = true)
    ∧ (classify t res err = .skipped ↔
        err = none ∧ res.changed = false ∧ res.failed = false ∧
        tmplSrc t.whenCond ≠ "" ∧ res.output = "")
    ∧ (classify t res err = .changed ↔ err = none ∧ res.changed = true)
    ∧ (classify t res err = .ok ↔
        err = none ∧ res.changed = false ∧
        (res.failed = true ∨ tmplSrc t.whenCond = "" ∨ res.output ≠ ""))
    ∧ (evaluateCondition t.whenCond vars = .ok false →
        executeTask env host t opts vars = ({}, none)
        ∧ classify t {} none = .skipped) := by
  have hgate : evaluateCondition t.whenCond vars = .ok false →
      executeTask env host t opts vars = ({}, none) ∧ classify t {} none = .skipped := by
    intro h
    have hsrc : tmplSrc t.whenCond ≠ "" := by
      intro he
      rw [evaluateCondition_empty t.whenCond vars he] at h
      exact absurd h (by simp)
    refine ⟨executeTask_gated env host t opts vars h, ?_⟩
    simp [classify, bne_iff_ne, hsrc]
  have hmain :
      (classify t res err = .failed ↔ err ≠ none ∧ t.ignoreErrors = false)
      ∧ (classify t res err = .ignored ↔ err ≠ none ∧ t.ignoreErrors = true)
      ∧ (classify t res err = .skipped ↔
          err = none ∧ res.changed = false ∧ res.failed = false ∧
          tmplSrc t.whenCond ≠ "" ∧ res.output = "")
      ∧ (classify t res err = .changed ↔ err = none ∧ res.changed = true)
      ∧ (classify t res err = .ok ↔
          err = none ∧ res.changed = false ∧
          (res.failed = true ∨ tmplSrc t.whenCond = "" ∨ res.output ≠ "")) := by
    unfold classify
    cases herr : err <;> cases hi : t.ignoreErrors <;> cases hch : res.changed <;>
      cases hfl : res.failed <;> cases hco : res.output == "" <;>
      by_cases hw : tmplSrc t.whenCond = "" <;>
      simp_all [bne_iff_ne, beq_iff_eq, beq_eq_false_iff_ne]
  exact ⟨hmain.1, hmain.2.1, hmain.2.2.1, hmain.2.2.2.1, hmain.2.2.2.2, hgate⟩

/-- C5 counterexample: a task that actually ran (truthy `when`) with empty
output, no error and `changed_when` false is classified skipped by the code,
while the claim's mapping classifies a non-gated errorless unchanged task as
ok. -/
theorem quiet_task_classified_skipped :
    evaluateCondition tQuiet.whenCond [] = .ok true ∧
    executeTask envQ host1 tQuiet {} []
      = ({ output := "", changed := false, failed := false, rc := 0 }, none) ∧
    classify tQuiet { output := "", changed := false, failed := false, rc := 0 } none
      = .skipped :=
  ⟨rfl, rfl, rfl⟩

/-- Witness for C5's amended statement: the gating hypothesis holds at the
falsy `when` of `tReg`. -/
theorem classification_mapping_witness :
    evaluateCondition tReg.whenCond [] = .ok false ∧
    (executeTask envQ host1 tReg {} [] = ({}, none) ∧ classify tReg {} none = .skipped) :=
  ⟨rfl, (classification_mapping tReg {} none envQ host1 {} []).2.2.2.2.2 rfl⟩

/-! ## C9 / C10 helper lemmas -/

theorem expandVars_total (s : Tmpl) (vars : VarMap) : ∃ r, expandVars s vars = .ok r := by
  unfold expandVars
  by_cases h : (vars.isEmpty || tmplSrc s == "") = true <;> simp [h]

theorem executeTask_plain (env : ExecEnv) (host : Host) (t : Task) (opts : RunOptions)
    (vars : VarMap) (hw : tmplSrc t.whenCond = "") (hwi : t.withItems = [])
    (hti : t.timeout = "") (hre : t.retries = 0) :
    executeTask env host t opts vars = runOnce env host t opts (vars ++ []) := by
  simp [executeTask, evaluateCondition_empty t.whenCond vars hw, hwi, hti, hre,
    mergeVars, mergeTwo]

theorem runOnce_copy_success (env : ExecEnv) (host : Host) (t : Task) (opts : RunOptions)
    (vars : VarMap) (c : CopyTask) (hc : t.copy = some c) (hdry : opts.dryRun = false)
    (hcp : env.copyRes host.address c.src c.dest = none) :
    runOnce env host t opts vars = ({ changed := true }, none) := by
  obtain ⟨cmd, hcmd⟩ := expandVars_total t.command vars
  simp [runOnce, hcmd, hdry, hc, hcp]

theorem runOnce_copy_fail (env : ExecEnv) (host : Host) (t : Task) (opts : RunOptions)
    (vars : VarMap) (c : CopyTask) (e : String) (hc : t.copy = some c)
    (hdry : opts.dryRun = false) (hcp : env.copyRes host.address c.src c.dest = some e) :
    runOnce env host t opts vars = ({ failed := true, rc := 1 }, some e) := by
  obtain ⟨cmd, hcmd⟩ := expandVars_total t.command vars
  simp [runOnce, hcmd, hdry, hc, hcp]

/-! ## C9: registered outputs -/

/-- C9: a tag-passing task with a non-empty `register` always stores the
result's output into the scope — on success, failure, ignored errors and
when-gated skips alike; a when-gated task registers the empty string. -/
theorem register_stores_output (env : ExecEnv) (host : Host) (opts : RunOptions)
    (t : Task) (st : LoopState)
    (htag : matchesTags t.tags opts.tags opts.skipTags = true)
    (hreg : t.register ≠ "") :
    ((runTasksLoop env host opts [t] st).vars
        = varSet st.vars t.register (executeTask env host t opts st.vars).1.output)
    ∧ (evaluateCondition t.whenCond st.vars = .ok false →
        varGet (runTasksLoop env host opts [t] st).vars t.register = some "") := by
  have hbne : (t.register != "") = true := bne_iff_ne.mpr hreg
  have hvars : (runTasksLoop env host opts [t] st).vars
      = varSet st.vars t.register (executeTask env host t opts st.vars).1.output := by
    simp only [runTasksLoop, htag, Bool.not_true, Bool.false_eq_true, if_false, hbne,
      if_true]
    cases hc : classify t (executeTask env host t opts st.vars).1
        (executeTask env host t opts st.vars).2 <;>
      by_cases hff : opts.failFast <;>
      simp [runTasksLoop, hc, hff]
  refine ⟨hvars, fun h => ?_⟩
  have he := executeTask_gated env host t opts st.vars h
  rw [hvars, he]
  simp [varGet_varSet_self]

/-- Witness for C9 at a when-gated registering task. -/
theorem register_stores_output_witness :
    matchesTags tReg.tags ({} : RunOptions).tags ({} : RunOptions).skipTags = true ∧
    tReg.register ≠ "" ∧
    evaluateCondition tReg.whenCond ([] : VarMap) = .ok false ∧
    varGet (runTasksLoop envQ host1 {} [tReg]
        { vars := [], summary := {} }).vars tReg.register = some "" := by
  refine ⟨by decide, by decide, rfl, ?_⟩
  exact (register_stores_output envQ host1 {} tReg { vars := [], summary := {} }
    (by decide) (by decide)).2 rfl

/-! ## C10: copy tasks are always changed -/

/-- C10: a non-dry-run copy task that completes without error returns
`TaskResult{Changed: true}` with empty output, is classified changed (never
ok), and records its notify handler; a failed copy returns `Failed: true`
with RC 1. -/
theorem copy_always_changed (env : ExecEnv) (host : Host) (opts : RunOptions)
    (vars : VarMap) (t : Task) (c : CopyTask)
    (hc : t.copy = some c) (hdry : opts.dryRun = false) :
    (env.copyRes host.address c.src c.dest = none →
        runOnce env host t opts vars = ({ changed := true }, none)
        ∧ classify t { changed := true } none = .changed)
    ∧ (∀ e, env.copyRes host.address c.src c.dest = some e →
        runOnce env host t opts vars = ({ failed := true, rc := 1 }, some e))
    ∧ (tmplSrc t.whenCond = "" → t.withItems = [] → t.timeout = "" → t.retries = 0 →
        t.notify ≠ "" → env.copyRes host.address c.src c.dest = none →
        matchesTags t.tags opts.tags opts.skipTags = true →
        ∀ st : LoopState, t.notify ∈ (runTasksLoop env host opts [t] st).notified) := by
  refine ⟨fun hcp => ⟨runOnce_copy_success env host t opts vars c hc hdry hcp, ?_⟩,
    fun e hcp => runOnce_copy_fail env host t opts vars c e hc hdry hcp,
    fun hw hwi hti hre hnot hcp htag st => ?_⟩
  · simp [classify]
  · have hbne : (t.notify != "") = true := bne_iff_ne.mpr hnot
    have hexec : executeTask env host t opts st.vars = ({ changed := true }, none) := by
      rw [executeTask_plain env host t opts st.vars hw hwi hti hre]
      exact runOnce_copy_success env host t opts (st.vars ++ []) c hc hdry hcp
    have hcls : classify t ({ changed := true } : TaskResult) none = .changed := by
      simp [classify]
    simp only [runTasksLoop, htag, Bool.not_true, Bool.false_eq_true, if_false]
    rw [hexec]
    simp [runTasksLoop, hcls, hbne, apply_ite LoopState.notified]

/-- Witness for C10 at a concrete copy task with a notify target. -/
theorem copy_always_changed_witness :
    tCopy.copy = some { src := "a.txt", dest := "b.txt" } ∧
    ({} : RunOptions).dryRun = false ∧
    env0.copyRes host1.address "a.txt" "b.txt" = none ∧
    (runOnce env0 host1 tCopy {} [] = ({ changed := true }, none)
      ∧ classify tCopy { changed := true } none = .changed) ∧
    "K" ∈ (runTasksLoop env0 host1 {} [tCopy] { vars := [], summary := {} }).notified := by
  refine ⟨by decide, by decide, rfl, ?_, ?_⟩
  · exact (copy_always_changed env0 host1 {} [] tCopy
      { src := "a.txt", dest := "b.txt" } (by decide) (by decide)).1 rfl
  · exact (copy_always_changed env0 host1 {} [] tCopy
      { src := "a.txt", dest := "b.txt" } (by decide) (by decide)).2.2
      (by decide) (by decide) (by decide) (by decide) (by decide) rfl (by decide)
      { vars := [], summary := {} }

/-! ## C1: handler firing -/

theorem countHandlerRuns_append (e1 e2 : List Event) (a k : String) :
    countHandlerRuns (e1 ++ e2) a k = countHandlerRuns e1 a k + countHandlerRuns e2 a k :=
  List.countP_append _ _ _

theorem countHandlerRuns_taskRun (hn tn a k : String) :
    countHandlerRuns [Event.taskRun hn tn] a k = 0 := rfl

theorem countHandlerRuns_handlerRun (hn n a k : String) :
    countHandlerRuns [Event.handlerRun hn n] a k
      = if (hn == a && n == k) = true then 1 else 0 := by
  simp [countHandlerRuns, List.countP, List.countP.go, Bool.cond_eq_ite]

/-- The task loop emits no handler-run events. -/
theorem runTasksLoop_countHandlerRuns (env : ExecEnv) (host : Host) (opts : RunOptions)
    (a k : String) :
    ∀ (tasks : List Task) (st : LoopState),
      countHandlerRuns (runTasksLoop env host opts tasks st).events a k
        = countHandlerRuns st.events a k := by
  intro tasks
  induction tasks with
  | nil => intro st; simp [runTasksLoop]
  | cons t rest ih =>
    intro st
    simp only [runTasksLoop]
    split
    · rw [ih]
    · split <;> (try split) <;> (try rw [ih]) <;>
        simp [apply_ite LoopState.events, countHandlerRuns_append, countHandlerRuns_taskRun]

/-- Each entry of the handler list fires at most once, so the handler loop
adds at most the multiplicity of `k` among the declared handler names. -/
theorem runHandlersLoop_count_le (env : ExecEnv) (host : Host) (opts : RunOptions)
    (vars : VarMap) (notified : List String) (a k : String) :
    ∀ (hs : List Handler) (sum : HostSummary) (evs : List Event),
      countHandlerRuns (runHandlersLoop env host opts vars notified hs sum evs).2 a k
        ≤ countHandlerRuns evs a k + (hs.map Handler.name).count k := by
  intro hs
  induction hs with
  | nil => intro sum evs; simp [runHandlersLoop]
  | cons h rest ih =>
    intro sum evs
    have hcnt : ((h :: rest).map Handler.name).count k
        = (rest.map Handler.name).count k + (if h.name == k then 1 else 0) := by
      simp [List.count_cons]
    simp only [runHandlersLoop]
    split
    · refine le_trans (ih _ _) ?_
      rw [countHandlerRuns_append, countHandlerRuns_handlerRun, hcnt]
      by_cases hk : (h.name == k) = true
      · simp only [hk, Bool.and_true, if_true]
        split <;> omega
      · simp only [hk, Bool.and_false, if_false]
        omega
    · refine le_trans (ih _ _) ?_
      rw [hcnt]
      split <;> omega

/-- C1 amended: during one service's execution on one host (one
`runHostTasks` invocation), a handler with a given name runs at most once,
however many of that service's tasks notify it, provided the play declares
distinct handler names. -/
theorem handler_at_most_once_per_service (env : ExecEnv) (host : Host)
    (serviceTasks : List Task) (handlers : List Handler) (opts : RunOptions)
    (vars : VarMap) (a k : String)
    (hnd : (handlers.map Handler.name).Nodup) :
    countHandlerRuns (runHostTasks env host serviceTasks handlers opts vars).2 a k ≤ 1 := by
  simp only [runHostTasks]
  generalize hG : runTasksLoop env host opts serviceTasks
      { vars := vars, summary := { host := host.address } } = st
  have h0 : countHandlerRuns st.events a k = 0 := by
    rw [← hG, runTasksLoop_countHandlerRuns]
    rfl
  have h2 : (handlers.map Handler.name).count k ≤ 1 :=
    List.nodup_iff_count_le_one.mp hnd k
  by_cases hs : st.stopped
  · simp [hs, h0]
  · simp only [hs, Bool.false_eq_true, if_false]
    have h1 := runHandlersLoop_count_le env host opts st.vars st.notified a k handlers
      st.summary st.events
    omega

/-- Witness for C1's amended statement: one service whose task notifies `K`,
distinct handler names. -/
theorem handler_at_most_once_per_service_witness :
    (([{ name := "K", command := [Piece.lit "c"] }] : List Handler).map Handler.name).Nodup ∧
    countHandlerRuns (runHostTasks env0 host1 [notifyTask "t1"]
        [{ name := "K", command := [Piece.lit "c"] }] {} []).2 "h1" "K" ≤ 1 :=
  ⟨by decide,
    handler_at_most_once_per_service env0 host1 [notifyTask "t1"]
      [{ name := "K", command := [Piece.lit "c"] }] {} [] "h1" "K" (by decide)⟩

/-- C1 counterexample: a play with two services whose tasks both notify
handler `K` runs `K`'s command twice on the same host within the same play —
`RunPlaybook` fires notified handlers once per service, not once per play. -/
theorem handler_reruns_across_services :
    countHandlerRuns (RunPlaybook env0 dir2 8 [play0] inv0 {}).events "h1" "K" = 2 := by
  decide

/-! ## C4: service dependency resolution -/

theorem LoadServiceTasks_ok (d : ServicesDir) (name : String) (ts : List Task)
    (h : LoadServiceTasks d name = .ok ts) : d.tasksOf name = .ok ts := by
  unfold LoadServiceTasks at h
  cases hto : d.tasksOf name <;> rw [hto] at h <;> simp_all

/-- Invariant of the dependency resolver: a successful load visits a
duplicate-free list of fresh service names, returns the concatenation of
their task lists in visit (postorder) order, marks exactly those names
visited, and — when resolving a single unvisited service — places that
service last, its own task list forming the tail of the result. -/
theorem loadStep_ok_spec (d : ServicesDir) :
    ∀ (f : Nat) (arg : String ⊕ List String) (vis : List String) (l : List Task)
      (vis' : List String),
      loadStep d f arg vis = .ok (l, vis') →
      ∃ names : List String,
        names.Nodup ∧ (∀ n ∈ names, n ∉ vis) ∧
        (∀ n, n ∈ vis' ↔ n ∈ names ∨ n ∈ vis) ∧
        l = names.flatMap (tasksOk d) ∧
        (∀ name, arg = .inl name → name ∈ vis → names = []) ∧
        (∀ name, arg = .inl name → name ∉ vis →
          names.getLast? = some name ∧
          ∃ own, d.tasksOf name = .ok own ∧ ∃ pre, l = pre ++ own) := by
  intro f
  induction f with
  | zero =>
    intro arg vis l vis' h
    simp [loadStep] at h
  | succ f ih =>
    intro arg vis l vis' h
    match arg with
    | .inl name =>
      by_cases hv : name ∈ vis
      · simp only [loadStep, if_pos hv, Except.ok.injEq, Prod.mk.injEq] at h
        obtain ⟨h1, h2⟩ := h
        subst h1; subst h2
        refine ⟨[], by simp, by simp, by simp, by simp, fun _ _ _ => rfl, ?_⟩
        intro nm hnm hnin
        injection hnm with he
        subst he
        exact absurd hv hnin
      · simp only [loadStep, if_neg hv] at h
        cases hm : LoadServiceMeta d name with
        | error e => simp only [hm] at h; exact absurd h (by simp)
        | ok deps =>
        simp only [hm] at h
        cases hrec : loadStep d f (.inr deps) (name :: vis) with
        | error e => simp only [hrec] at h; exact absurd h (by simp)
        | ok pr =>
        obtain ⟨all, vis2⟩ := pr
        simp only [hrec] at h
        cases ht : LoadServiceTasks d name with
        | error e => simp only [ht] at h; exact absurd h (by simp)
        | ok own =>
        simp only [ht, Except.ok.injEq, Prod.mk.injEq] at h
        obtain ⟨h1, h2⟩ := h
        subst h1; subst h2
        have hton : d.tasksOf name = .ok own := LoadServiceTasks_ok d name own ht
        obtain ⟨namesD, hnd, hnotin, hmem, hflat, -, -⟩ :=
          ih (.inr deps) (name :: vis) all vis2 hrec
        refine ⟨namesD ++ [name], ?_, ?_, ?_, ?_, ?_, ?_⟩
        · refine List.Nodup.append hnd (by simp) ?_
          rw [List.disjoint_singleton]
          intro hmemD
          exact (hnotin name hmemD) (List.mem_cons_self name vis)
        · intro n hn
          rcases List.mem_append.mp hn with hn1 | hn1
          · intro hnv
            exact (hnotin n hn1) (List.mem_cons_of_mem name hnv)
          · rw [List.mem_singleton] at hn1
            subst hn1
            exact hv
        · intro n
          rw [hmem n]
          simp only [List.mem_append, List.mem_singleton, List.mem_cons]
          tauto
        · rw [hflat, List.flatMap_append, List.flatMap_cons, List.flatMap_nil,
            List.append_nil, tasksOk, hton]
        · intro nm hnm hin
          injection hnm with he
          subst he
          exact absurd hin hv
        · intro nm hnm hnin
          injection hnm with he
          subst he
          exact ⟨List.getLast?_concat _, own, hton, all, rfl⟩
    | .inr deps =>
      cases deps with
      | nil =>
        simp only [loadStep, Except.ok.injEq, Prod.mk.injEq] at h
        obtain ⟨h1, h2⟩ := h
        subst h1; subst h2
        refine ⟨[], by simp, by simp, by simp, by simp, ?_, ?_⟩
        · intro nm hnm hin
          simp at hnm
        · intro nm hnm
          simp at hnm
      | cons dep rest =>
        simp only [loadStep] at h
        cases hr1 : loadStep d f (.inl dep) vis with
        | error e => simp only [hr1] at h; exact absurd h (by simp)
        | ok pr1 =>
        obtain ⟨ts, vis2⟩ := pr1
        simp only [hr1] at h
        cases hr2 : loadStep d f (.inr rest) vis2 with
        | error e => simp only [hr2] at h; exact absurd h (by simp)
        | ok pr2 =>
        obtain ⟨ts2, vis3⟩ := pr2
        simp only [hr2, Except.ok.injEq, Prod.mk.injEq] at h
        obtain ⟨h1, h2⟩ := h
        subst h1; subst h2
        obtain ⟨names1, d1, ni1, m1, f1, -, -⟩ := ih (.inl dep) vis ts vis2 hr1
        obtain ⟨names2, d2, ni2, m2, f2, -, -⟩ := ih (.inr rest) vis2 ts2 vis3 hr2
        refine ⟨names1 ++ names2, ?_, ?_, ?_, ?_, ?_, ?_⟩
        · refine List.Nodup.append d1 d2 ?_
          intro n hn1 hn2
          exact (ni2 n hn2) ((m1 n).mpr (Or.inl hn1))
        · intro n hn
          rcases List.mem_append.mp hn with hn1 | hn1
          · exact ni1 n hn1
          · intro hnv
            exact (ni2 n hn1) ((m1 n).mpr (Or.inr hnv))
        · intro n
          rw [m2 n]
          simp only [List.mem_append]
          rw [m1 n]
          tauto
        · rw [f1, f2, List.flatMap_append]
        · intro nm hnm; cases hnm
        · intro nm hnm; cases hnm

/-- C4: a missing meta file is not an error; a missing tasks file is an
error; and a successful resolution is the concatenation, in depth-first
postorder, of the task lists of a duplicate-free list of services ending with
the requested service — so each service's tasks appear at most once even on
cyclic dependency graphs, dependencies preceding the service's own tasks,
which form the tail of the result. -/
theorem service_resolution (d : ServicesDir) (S : String) (fuel : Nat) :
    (d.metaOf S = .missing → LoadServiceMeta d S = .ok []) ∧
    (d.tasksOf S = .missing → ∃ e, LoadServiceTasks d S = .error e) ∧
    (∀ l, LoadServiceTasksWithDeps d fuel S = .ok l →
      ∃ names : List String, names.Nodup ∧ names.getLast? = some S ∧
        l = names.flatMap (tasksOk d) ∧
        ∃ own, d.tasksOf S = .ok own ∧ ∃ pre, l = pre ++ own) := by
  refine ⟨fun hm => by simp [LoadServiceMeta, hm],
    fun ht => ⟨"open tasks/main.yaml: no such file for " ++ S,
      by simp [LoadServiceTasks, ht]⟩, ?_⟩
  intro l hl
  unfold LoadServiceTasksWithDeps at hl
  cases hstep : loadStep d fuel (.inl S) [] with
  | error e => rw [hstep] at hl; exact absurd hl (by simp [Except.map])
  | ok pr =>
  obtain ⟨l0, vis0⟩ := pr
  rw [hstep] at hl
  simp only [Except.map, Except.ok.injEq] at hl
  subst hl
  obtain ⟨names, hnd, -, -, hflat, -, hlast⟩ := loadStep_ok_spec d fuel (.inl S) [] l0 vis0 hstep
  obtain ⟨hget, own, hown, pre, hpre⟩ := hlast S rfl (by simp)
  exact ⟨names, hnd, hget, hflat, own, hown, pre, hpre⟩

/-- Witness for C4 at the cyclic pair of services `a ↔ b`: resolution of `a`
succeeds with `b`'s task then `a`'s task, and the missing-file clauses hold at
an absent service `c`. -/
theorem service_resolution_witness :
    dirCyc.metaOf "c" = .missing ∧ dirCyc.tasksOf "c" = .missing ∧
    LoadServiceTasksWithDeps dirCyc 5 "a" = .ok [{ name := "tb" }, { name := "ta" }] ∧
    LoadServiceMeta dirCyc "c" = .ok [] ∧
    (∃ e, LoadServiceTasks dirCyc "c" = .error e) ∧
    (∃ names : List String, names.Nodup ∧ names.getLast? = some "a" ∧
      ([{ name := "tb" }, { name := "ta" }] : List Task) = names.flatMap (tasksOk dirCyc) ∧
      ∃ own, dirCyc.tasksOf "a" = .ok own ∧
        ∃ pre, ([{ name := "tb" }, { name := "ta" }] : List Task) = pre ++ own) :=
  ⟨by decide, by decide, rfl,
    (service_resolution dirCyc "c" 5).1 (by decide),
    (service_resolution dirCyc "c" 5).2.1 (by decide),
    (service_resolution dirCyc "a" 5).2.2 _ rfl⟩

end ForSpec
